import Mathlib

/-!
# The link, post and user store of the MS Teams sync plugin

A shallow embedding of `server/store/store.go`.

* The three relations created by `Init` are lists of rows kept in insertion
  order.  A statement is a function on the table it names: `INSERT` appends
  a row unless the primary key is taken, `INSERT .. ON CONFLICT .. DO UPDATE`
  rewrites the row holding the key, `DELETE` filters, and `QueryRow` +
  `Scan` yields the first row of the result set or `sql.ErrNoRows`.
* The host platform (`api.GetTeam`) and the configuration accessor
  (`enabledTeams`) are the fields of `Host`.
* `encoding/json` and `oauth2.Token` are libraries outside the repository;
  the two calls the store makes into them, `json.Marshal(token)` and
  `json.Unmarshal(blob, &token)`, are the fields of `TokenCodec`, and the
  store is generic in the type of tokens, which it only passes on.
* The backend is reachable: a statement fails only for the reasons the
  schema gives it (a duplicate primary key) and a query only with
  `sql.ErrNoRows`.
-/

namespace MSTeamsSync

/-! ## Data model -/

/-- ChannelLink, the record handed to and returned by the link operations. -/
structure ChannelLink where
  MattermostTeam : String
  MattermostChannel : String
  MSTeamsTeam : String
  MSTeamsChannel : String
deriving DecidableEq

/-- Row of `msteamssync_links (mmChannelID PRIMARY KEY, mmTeamID,
msTeamsChannelID, msTeamsTeamID)`. -/
structure LinkRow where
  mmChannelID : String
  mmTeamID : String
  msTeamsChannelID : String
  msTeamsTeamID : String
deriving DecidableEq

/-- Row of `msteamssync_users (mmUserID PRIMARY KEY, msTeamsUserID, token)`. -/
structure UserRow where
  mmUserID : String
  msTeamsUserID : String
  token : String
deriving DecidableEq

/-- Row of `msteamssync_posts (mmPostID PRIMARY KEY, msTeamsPostID,
msTeamsChannelID)`. -/
structure PostRow where
  mmPostID : String
  msTeamsPostID : String
  msTeamsChannelID : String
deriving DecidableEq

/-- The errors an operation of the store can hand back. -/
inductive StoreError where
  /-- `sql.ErrNoRows`, from `row.Scan` on an empty result set. -/
  | errNoRows
  /-- The backend refusing an `INSERT` whose primary key is already present. -/
  | duplicateKey
  /-- The value of `errors.New("link not enabled for this team")`. -/
  | linkNotEnabled
  /-- An error of `json.Marshal`. -/
  | marshalError
  /-- An error of `json.Unmarshal`. -/
  | unmarshalError
deriving DecidableEq

/-- The database behind `s.db`: the three tables of `Init`, each in
insertion order. -/
structure DB where
  links : List LinkRow
  users : List UserRow
  posts : List PostRow
deriving DecidableEq

/-- The database right after `Init` ran against a fresh backend. -/
def DB.empty : DB := { links := [], users := [], posts := [] }

/-- The primary-key constraints declared by `Init`: no two rows of a table
share their key column. -/
def DB.Valid (db : DB) : Prop :=
  (db.links.map LinkRow.mmChannelID).Nodup ∧
  (db.users.map UserRow.mmUserID).Nodup ∧
  (db.posts.map PostRow.mmPostID).Nodup

/-- The collaborators held by `StoreImpl` next to the database handle:
`enabledTeams` is the value of `s.enabledTeams()` and `GetTeam teamId` is the
`Name` of the team `s.api.GetTeam(teamId)` resolves to, `none` when the call
returns an error. -/
structure Host where
  enabledTeams : List String
  GetTeam : String → Option String

/-- The two library calls the store makes on tokens: `marshal` stands for
`json.Marshal(token)` followed by `string(..)`, `unmarshal` for
`json.Unmarshal([]byte(tokendata), &token)`; `none` is the call returning an
error. -/
structure TokenCodec (Token : Type) where
  marshal : Token → Option String
  unmarshal : String → Option Token

/-! ## Statements -/

/-- `QueryRow()` then `Scan`: the first row satisfying the `WHERE` clause,
`sql.ErrNoRows` when there is none. -/
def queryRow {ρ : Type} (table : List ρ) (wh : ρ → Bool) : Except StoreError ρ :=
  match table.find? wh with
  | some r => .ok r
  | none => .error .errNoRows

/-- `INSERT INTO table` under the primary key `key`: refused when a row with
the same key exists, appended otherwise. -/
def execInsert {ρ : Type} (key : ρ → String) (table : List ρ) (r : ρ) :
    Except StoreError (List ρ) :=
  if table.any (fun x => key x == key r) then .error .duplicateKey
  else .ok (table ++ [r])

/-- `INSERT INTO msteamssync_users .. ON CONFLICT (mmUserID) DO UPDATE SET
msTeamsUserID = EXCLUDED.msTeamsUserID, token = EXCLUDED.token`. -/
def execUpsertUser (table : List UserRow) (r : UserRow) : List UserRow :=
  if table.any (fun x => x.mmUserID == r.mmUserID) then
    table.map (fun x =>
      if x.mmUserID == r.mmUserID then
        { x with msTeamsUserID := r.msTeamsUserID, token := r.token }
      else x)
  else table ++ [r]

/-- `DELETE FROM table WHERE ..`. -/
def execDelete {ρ : Type} (table : List ρ) (wh : ρ → Bool) : List ρ :=
  table.filter (fun x => !wh x)

/-! ## Operations of `StoreImpl` -/

/-- The `for _, enabledTeam := range s.enabledTeams()` loop of
`CheckEnabledTeamByTeamId`, with its `break` on the first equal name. -/
def enabledTeamLoop (teamName : String) : List String → Bool
  | [] => false
  | enabledTeam :: rest =>
    if teamName == enabledTeam then true else enabledTeamLoop teamName rest

/-- CheckEnabledTeamByTeamId of store.go. -/
def CheckEnabledTeamByTeamId (h : Host) (teamId : String) : Bool :=
  if h.enabledTeams.length == 1 && h.enabledTeams[0]? == some "" then true
  else
    match h.GetTeam teamId with
    | none => false
    | some teamName => enabledTeamLoop teamName h.enabledTeams

/-- The `Scan` of the link lookups: the selected columns `mmChannelID,
mmTeamID, msTeamsChannelID, msTeamsTeamID` go, in that order, to
`MattermostChannel, MattermostTeam, MSTeamsChannel, MSTeamsTeam`. -/
def scanLink (r : LinkRow) : ChannelLink :=
  { MattermostChannel := r.mmChannelID
    MattermostTeam := r.mmTeamID
    MSTeamsChannel := r.msTeamsChannelID
    MSTeamsTeam := r.msTeamsTeamID }

/-- The `Values(..)` of `StoreChannelLink`, column by column. -/
def linkValues (link : ChannelLink) : LinkRow :=
  { mmChannelID := link.MattermostChannel
    mmTeamID := link.MattermostTeam
    msTeamsChannelID := link.MSTeamsChannel
    msTeamsTeamID := link.MSTeamsTeam }

/-- GetLinkByChannelID of store.go. -/
def GetLinkByChannelID (h : Host) (db : DB) (channelID : String) :
    Except StoreError ChannelLink :=
  match queryRow db.links (fun r => r.mmChannelID == channelID) with
  | .error err => .error err
  | .ok row =>
    let link := scanLink row
    if !CheckEnabledTeamByTeamId h link.MattermostTeam then .error .linkNotEnabled
    else .ok link

/-- GetLinkByMSTeamsChannelID of store.go; the `WHERE` clause is
`sq.Eq{"msTeamsChannelID": channelID}` and `teamID` does not occur in the
body. -/
def GetLinkByMSTeamsChannelID (h : Host) (db : DB) (_teamID channelID : String) :
    Except StoreError ChannelLink :=
  match queryRow db.links (fun r => r.msTeamsChannelID == channelID) with
  | .error err => .error err
  | .ok row =>
    let link := scanLink row
    if !CheckEnabledTeamByTeamId h link.MattermostTeam then .error .linkNotEnabled
    else .ok link

/-- DeleteLinkByChannelID of store.go. -/
def DeleteLinkByChannelID (db : DB) (channelID : String) : Option StoreError × DB :=
  (none, { db with links := execDelete db.links (fun r => r.mmChannelID == channelID) })

/-- StoreChannelLink of store.go: the returned error (`none` for `nil`) and
the database the call leaves behind. -/
def StoreChannelLink (h : Host) (db : DB) (link : ChannelLink) : Option StoreError × DB :=
  match execInsert LinkRow.mmChannelID db.links (linkValues link) with
  | .error err => (some err, db)
  | .ok links =>
    if !CheckEnabledTeamByTeamId h link.MattermostTeam then
      (some .linkNotEnabled, { db with links := links })
    else (none, { db with links := links })

/-- TeamsToMattermostUserId of store.go. -/
def TeamsToMattermostUserId (db : DB) (userID : String) : Except StoreError String :=
  match queryRow db.users (fun r => r.msTeamsUserID == userID) with
  | .error err => .error err
  | .ok row => .ok row.mmUserID

/-- MattermostToTeamsUserId of store.go. -/
def MattermostToTeamsUserId (db : DB) (userID : String) : Except StoreError String :=
  match queryRow db.users (fun r => r.mmUserID == userID) with
  | .error err => .error err
  | .ok row => .ok row.msTeamsUserID

/-- TeamsToMattermostPostId of store.go. -/
def TeamsToMattermostPostId (db : DB) (chatID postID : String) : Except StoreError String :=
  match queryRow db.posts
      (fun r => r.msTeamsPostID == postID && r.msTeamsChannelID == chatID) with
  | .error err => .error err
  | .ok row => .ok row.mmPostID

/-- MattermostToTeamsPostId of store.go. -/
def MattermostToTeamsPostId (db : DB) (postID : String) : Except StoreError String :=
  match queryRow db.posts (fun r => r.mmPostID == postID) with
  | .error err => .error err
  | .ok row => .ok row.msTeamsPostID

/-- LinkPosts of store.go. -/
def LinkPosts (db : DB) (mattermostPostID teamsChatOrChannelID teamsPostID : String) :
    Option StoreError × DB :=
  match execInsert PostRow.mmPostID db.posts
      { mmPostID := mattermostPostID
        msTeamsPostID := teamsPostID
        msTeamsChannelID := teamsChatOrChannelID } with
  | .error err => (some err, db)
  | .ok posts => (none, { db with posts := posts })

/-- The `json.Unmarshal([]byte(tokendata), &token)` step of the two token
lookups, with its error check. -/
def decodeToken {Token : Type} (codec : TokenCodec Token) (tokendata : String) :
    Except StoreError Token :=
  match codec.unmarshal tokendata with
  | none => .error .unmarshalError
  | some token => .ok token

/-- GetTokenForMattermostUser of store.go. -/
def GetTokenForMattermostUser {Token : Type} (codec : TokenCodec Token) (db : DB)
    (userID : String) : Except StoreError Token :=
  match queryRow db.users (fun r => r.mmUserID == userID) with
  | .error err => .error err
  | .ok row => decodeToken codec row.token

/-- GetTokenForMSTeamsUser of store.go. -/
def GetTokenForMSTeamsUser {Token : Type} (codec : TokenCodec Token) (db : DB)
    (userID : String) : Except StoreError Token :=
  match queryRow db.users (fun r => r.msTeamsUserID == userID) with
  | .error err => .error err
  | .ok row => decodeToken codec row.token

/-- The `tokendata` of `SetUserInfo`: `[]byte{}` for a nil token, the
marshalled token otherwise; `none` when `json.Marshal` returns an error. -/
def tokenData {Token : Type} (codec : TokenCodec Token) : Option Token → Option String
  | none => some ""
  | some token => codec.marshal token

/-- SetUserInfo of store.go; `token = none` is the nil pointer. -/
def SetUserInfo {Token : Type} (codec : TokenCodec Token) (db : DB)
    (userID msTeamsUserID : String) (token : Option Token) : Option StoreError × DB :=
  match tokenData codec token with
  | none => (some .marshalError, db)
  | some tokendata =>
    let row : UserRow :=
      { mmUserID := userID, msTeamsUserID := msTeamsUserID, token := tokendata }
    (none, { db with users := execUpsertUser db.users row })

/-! ## Sample hosts, links and databases -/

/-- A host in unrestricted mode: the configured list is `[""]` and no team
resolves. -/
def openHost : Host := { enabledTeams := [""], GetTeam := fun _ => none }

/-- A host whose configured list is `["teamA"]`; team `id-a` resolves to
`teamA`, team `id-b` to `teamB`, and no other team resolves. -/
def teamAHost : Host :=
  { enabledTeams := ["teamA"]
    GetTeam := fun teamId =>
      if teamId = "id-a" then some "teamA"
      else if teamId = "id-b" then some "teamB"
      else none }

/-- A link of a team that resolves to `teamA`. -/
def townSquare : ChannelLink :=
  { MattermostTeam := "id-a", MattermostChannel := "town-square"
    MSTeamsTeam := "ms-team-1", MSTeamsChannel := "ms-general" }

/-- A second link for the local channel of `townSquare`. -/
def townSquareAgain : ChannelLink :=
  { MattermostTeam := "id-a", MattermostChannel := "town-square"
    MSTeamsTeam := "ms-team-9", MSTeamsChannel := "ms-other" }

/-- A link of a team that resolves to `teamB`. -/
def offTopic : ChannelLink :=
  { MattermostTeam := "id-b", MattermostChannel := "off-topic"
    MSTeamsTeam := "ms-team-2", MSTeamsChannel := "ms-random" }

/-- A link of a team that does not resolve. -/
def lostTeam : ChannelLink :=
  { MattermostTeam := "id-gone", MattermostChannel := "attic"
    MSTeamsTeam := "ms-team-3", MSTeamsChannel := "ms-attic" }

/-- A database with one link, one user and one post. -/
def sampleDB : DB :=
  { links := [linkValues offTopic]
    users := [UserRow.mk "user-1" "ms-user-old" ""]
    posts := [PostRow.mk "post-1" "ms-post" "ms-chat"] }

/-- Two links, of a team that resolves to `teamA` and of a team that resolves
to `teamB`, for two local channels bridged to the same remote channel. -/
def generalA : ChannelLink :=
  { MattermostTeam := "id-a", MattermostChannel := "ch-1"
    MSTeamsTeam := "ms-team-2", MSTeamsChannel := "general" }

/-- The second link for the remote channel of `generalA`. -/
def generalB : ChannelLink :=
  { MattermostTeam := "id-b", MattermostChannel := "ch-2"
    MSTeamsTeam := "ms-team-2", MSTeamsChannel := "general" }

/-- The database holding the rows of `generalA` and `generalB`, in the order
of their insertion. -/
def sharedDB : DB :=
  { links := [linkValues generalA, linkValues generalB], users := [], posts := [] }

/-- A sample codec, at which the codec parameter is instantiated: a token is
a text, written as `=` followed by the text and read back by dropping the
`=`; a blob that does not start with `=`, the empty blob among them, is
rejected.  It stands for no library. -/
def sampleCodec : TokenCodec String :=
  { marshal := fun t => some (String.mk ('=' :: t.data))
    unmarshal := fun blob =>
      match blob.data with
      | '=' :: rest => some (String.mk rest)
      | _ => none }

/-! ## Lemmas on the statements -/

theorem enabledTeamLoop_eq_decide (teamName : String) (teams : List String) :
    enabledTeamLoop teamName teams = decide (teamName ∈ teams) := by
  induction teams with
  | nil => simp [enabledTeamLoop]
  | cons t rest ih =>
    by_cases ht : teamName = t
    · simp [enabledTeamLoop, ht]
    · simp [enabledTeamLoop, ht, ih]

theorem length_one_and_head_empty (teams : List String) :
    (teams.length == 1 && teams[0]? == some "") = decide (teams = [""]) := by
  match teams with
  | [] => simp
  | [t] => 
    by_cases ht : t = ""
    · simp [ht]
    · simp [ht]
  | _ :: _ :: _ => simp

theorem queryRow_eq_ok_iff {ρ : Type} (table : List ρ) (wh : ρ → Bool) (r : ρ) :
    queryRow table wh = .ok r ↔ table.find? wh = some r := by
  unfold queryRow
  cases hfind : table.find? wh with
  | none => simp
  | some x => simp

theorem queryRow_mem {ρ : Type} {table : List ρ} {wh : ρ → Bool} {r : ρ}
    (hq : queryRow table wh = .ok r) : r ∈ table ∧ wh r = true := by
  rw [queryRow_eq_ok_iff] at hq
  exact ⟨List.mem_of_find?_eq_some hq, List.find?_some hq⟩

theorem queryRow_append_fresh {ρ : Type} (table : List ρ) (wh : ρ → Bool) (r : ρ)
    (hfresh : ∀ x ∈ table, wh x = false) (hr : wh r = true) :
    queryRow (table ++ [r]) wh = .ok r := by
  rw [queryRow_eq_ok_iff, List.find?_append]
  have hnone : table.find? wh = none := by
    rw [List.find?_eq_none]
    intro x hx
    simp [hfresh x hx]
  simp [hnone, List.find?, hr]

theorem execInsert_fresh {ρ : Type} (key : ρ → String) (table : List ρ) (r : ρ)
    (hfresh : ∀ x ∈ table, key x ≠ key r) :
    execInsert key table r = .ok (table ++ [r]) := by
  unfold execInsert
  have hany : table.any (fun x => key x == key r) = false := by
    rw [List.any_eq_false]
    intro x hx
    simpa using hfresh x hx
  simp [hany]

theorem execInsert_taken {ρ : Type} (key : ρ → String) (table : List ρ) (r x : ρ)
    (hx : x ∈ table) (hkey : key x = key r) :
    execInsert key table r = .error .duplicateKey := by
  unfold execInsert
  have hany : table.any (fun y => key y == key r) = true := by
    rw [List.any_eq_true]
    exact ⟨x, hx, by simpa using hkey⟩
  simp [hany]

theorem StoreChannelLink_fresh (h : Host) (db : DB) (L : ChannelLink)
    (hfresh : ∀ r ∈ db.links, r.mmChannelID ≠ L.MattermostChannel) :
    StoreChannelLink h db L =
      (if CheckEnabledTeamByTeamId h L.MattermostTeam then none else some .linkNotEnabled,
        { db with links := db.links ++ [linkValues L] }) := by
  have hins : execInsert LinkRow.mmChannelID db.links (linkValues L)
      = .ok (db.links ++ [linkValues L]) :=
    execInsert_fresh _ _ _ (by simpa [linkValues] using hfresh)
  unfold StoreChannelLink
  rw [hins]
  cases CheckEnabledTeamByTeamId h L.MattermostTeam <;> rfl

theorem StoreChannelLink_taken (h : Host) (db : DB) (L : ChannelLink) (x : LinkRow)
    (hx : x ∈ db.links) (hkey : x.mmChannelID = L.MattermostChannel) :
    StoreChannelLink h db L = (some .duplicateKey, db) := by
  have hdup : execInsert LinkRow.mmChannelID db.links (linkValues L)
      = .error .duplicateKey :=
    execInsert_taken _ _ _ x hx (by simpa [linkValues] using hkey)
  unfold StoreChannelLink
  rw [hdup]

theorem queryRow_links_after_insert (db : DB) (L : ChannelLink)
    (hfresh : ∀ r ∈ db.links, r.mmChannelID ≠ L.MattermostChannel) :
    queryRow (db.links ++ [linkValues L])
      (fun r => r.mmChannelID == L.MattermostChannel) = .ok (linkValues L) :=
  queryRow_append_fresh _ _ _ (by simpa using hfresh) (by simp [linkValues])

theorem scanLink_linkValues (L : ChannelLink) : scanLink (linkValues L) = L := rfl

theorem linkValues_scanLink (r : LinkRow) : linkValues (scanLink r) = r := rfl

/-! ## The enabled-team filter -/

/-- C2: CheckEnabledTeamByTeamId is this function of the configured list and
the host team lookup: true when the list is exactly `[""]`, whatever the team
lookup gives; otherwise false when the lookup fails, and otherwise true
exactly when the resolved name is equal to an entry of the list. -/
theorem CheckEnabledTeamByTeamId_eq (h : Host) (teamId : String) :
    CheckEnabledTeamByTeamId h teamId =
      if h.enabledTeams = [""] then true
      else
        match h.GetTeam teamId with
        | none => false
        | some teamName => decide (teamName ∈ h.enabledTeams) := by
  unfold CheckEnabledTeamByTeamId
  rw [length_one_and_head_empty]
  by_cases hopen : h.enabledTeams = [""]
  · simp [hopen]
  · simp only [hopen, decide_False, if_false]
    cases h.GetTeam teamId with
    | none => rfl
    | some teamName => simp [enabledTeamLoop_eq_decide]

/-! ## Channel links -/

/-- C1: on a store with no row for the local channel of `L` and with the team
of `L` enabled, StoreChannelLink returns no error and the following
GetLinkByChannelID on that channel returns `L`, all four fields equal. -/
theorem StoreChannelLink_then_GetLinkByChannelID (h : Host) (db : DB) (L : ChannelLink)
    (hfresh : ∀ r ∈ db.links, r.mmChannelID ≠ L.MattermostChannel)
    (henabled : CheckEnabledTeamByTeamId h L.MattermostTeam = true) :
    (StoreChannelLink h db L).1 = none ∧
      GetLinkByChannelID h (StoreChannelLink h db L).2 L.MattermostChannel = .ok L := by
  rw [StoreChannelLink_fresh h db L hfresh]
  refine ⟨by simp [henabled], ?_⟩
  unfold GetLinkByChannelID
  dsimp only
  rw [queryRow_links_after_insert db L hfresh]
  simp [scanLink_linkValues, henabled]

/-- C9: on a store with no row for the local channel of `L` and with the team
of `L` not enabled, StoreChannelLink returns the not-enabled error and the
links table it leaves behind is the old one with the row of `L` appended, so
a query for that channel fetches the row of `L`. -/
theorem StoreChannelLink_not_enabled_keeps_row (h : Host) (db : DB) (L : ChannelLink)
    (hfresh : ∀ r ∈ db.links, r.mmChannelID ≠ L.MattermostChannel)
    (hdisabled : CheckEnabledTeamByTeamId h L.MattermostTeam = false) :
    (StoreChannelLink h db L).1 = some .linkNotEnabled ∧
      (StoreChannelLink h db L).2.links = db.links ++ [linkValues L] ∧
      linkValues L ∈ (StoreChannelLink h db L).2.links ∧
      queryRow (StoreChannelLink h db L).2.links
        (fun r => r.mmChannelID == L.MattermostChannel) = .ok (linkValues L) := by
  rw [StoreChannelLink_fresh h db L hfresh]
  refine ⟨by simp [hdisabled], rfl, by simp, ?_⟩
  exact queryRow_links_after_insert db L hfresh

/-- C6: for two links with the same local channel and a store with no row for
it, the first StoreChannelLink appends the row of `L1`, the second one returns
the duplicate-key error and leaves the database as the first call left it, and
the only row for that channel is still the row of `L1`. -/
theorem StoreChannelLink_same_channel_twice (h : Host) (db : DB) (L1 L2 : ChannelLink)
    (hsame : L1.MattermostChannel = L2.MattermostChannel)
    (hfresh : ∀ r ∈ db.links, r.mmChannelID ≠ L1.MattermostChannel) :
    (StoreChannelLink h db L1).2.links = db.links ++ [linkValues L1] ∧
      (StoreChannelLink h (StoreChannelLink h db L1).2 L2).1 = some .duplicateKey ∧
      (StoreChannelLink h (StoreChannelLink h db L1).2 L2).2 = (StoreChannelLink h db L1).2 ∧
      (StoreChannelLink h (StoreChannelLink h db L1).2 L2).2.links.filter
        (fun r => r.mmChannelID == L1.MattermostChannel) = [linkValues L1] := by
  have hfirst : (StoreChannelLink h db L1).2.links = db.links ++ [linkValues L1] := by
    rw [StoreChannelLink_fresh h db L1 hfresh]
  have hsecond : StoreChannelLink h (StoreChannelLink h db L1).2 L2
      = (some .duplicateKey, (StoreChannelLink h db L1).2) :=
    StoreChannelLink_taken h _ L2 (linkValues L1) (by simp [hfirst])
      (by simp [linkValues, hsame])
  refine ⟨hfirst, by rw [hsecond], by rw [hsecond], ?_⟩
  rw [hsecond]
  dsimp only
  rw [hfirst, List.filter_append]
  have hnone : db.links.filter (fun r => r.mmChannelID == L1.MattermostChannel) = [] := by
    rw [List.filter_eq_nil_iff]
    intro r hr
    simpa using hfresh r hr
  simp [hnone, linkValues]

theorem find?_key_of_nodup {ρ : Type} (key : ρ → String) (table : List ρ) (r : ρ)
    (hnodup : (table.map key).Nodup) (hr : r ∈ table) :
    table.find? (fun x => key x == key r) = some r := by
  induction table with
  | nil => cases hr
  | cons x rest ih =>
    rw [List.map_cons, List.nodup_cons] at hnodup
    rcases List.mem_cons.mp hr with hrx | hrest
    · subst hrx
      simp [List.find?]
    · have hne : key x ≠ key r := by
        intro heq
        exact hnodup.1 (heq ▸ List.mem_map_of_mem key hrest)
      have hbeq : (key x == key r) = false := by simpa using hne
      rw [List.find?_cons, hbeq]
      exact ih hnodup.2 hrest

theorem queryRow_links_by_key (db : DB) (hvalid : db.Valid) (r : LinkRow) (hr : r ∈ db.links) :
    queryRow db.links (fun x => x.mmChannelID == r.mmChannelID) = .ok r := by
  rw [queryRow_eq_ok_iff]
  exact find?_key_of_nodup LinkRow.mmChannelID db.links r hvalid.1 hr

theorem CheckEnabledTeamByTeamId_open (h : Host) (hopen : h.enabledTeams = [""])
    (teamId : String) : CheckEnabledTeamByTeamId h teamId = true := by
  simp [CheckEnabledTeamByTeamId, hopen]

theorem GetLinkByChannelID_of_row (h : Host) (db : DB) (channelID : String) (r : LinkRow)
    (hq : queryRow db.links (fun x => x.mmChannelID == channelID) = .ok r) :
    GetLinkByChannelID h db channelID =
      if CheckEnabledTeamByTeamId h r.mmTeamID then .ok (scanLink r)
      else .error .linkNotEnabled := by
  unfold GetLinkByChannelID
  rw [hq]
  cases hc : CheckEnabledTeamByTeamId h r.mmTeamID <;> simp [scanLink, hc]

theorem GetLinkByMSTeamsChannelID_of_row (h : Host) (db : DB) (teamID channelID : String)
    (r : LinkRow)
    (hq : queryRow db.links (fun x => x.msTeamsChannelID == channelID) = .ok r) :
    GetLinkByMSTeamsChannelID h db teamID channelID =
      if CheckEnabledTeamByTeamId h r.mmTeamID then .ok (scanLink r)
      else .error .linkNotEnabled := by
  unfold GetLinkByMSTeamsChannelID
  rw [hq]
  cases hc : CheckEnabledTeamByTeamId h r.mmTeamID <;> simp [scanLink, hc]

theorem GetLinkByChannelID_ok_inv (h : Host) (db : DB) (channelID : String)
    (link : ChannelLink) (hget : GetLinkByChannelID h db channelID = .ok link) :
    linkValues link ∈ db.links ∧ link.MattermostChannel = channelID ∧
      CheckEnabledTeamByTeamId h link.MattermostTeam = true := by
  cases hq : queryRow db.links (fun x => x.mmChannelID == channelID) with
  | error e => simp [GetLinkByChannelID, hq] at hget
  | ok r =>
    rw [GetLinkByChannelID_of_row h db channelID r hq] at hget
    cases hc : CheckEnabledTeamByTeamId h r.mmTeamID with
    | false => simp [hc] at hget
    | true =>
      simp only [hc, if_true, Except.ok.injEq] at hget
      subst hget
      have hmem := queryRow_mem hq
      exact ⟨hmem.1, by simpa [scanLink] using hmem.2, hc⟩

theorem GetLinkByMSTeamsChannelID_ok_inv (h : Host) (db : DB) (teamID channelID : String)
    (link : ChannelLink) (hget : GetLinkByMSTeamsChannelID h db teamID channelID = .ok link) :
    linkValues link ∈ db.links ∧ link.MSTeamsChannel = channelID ∧
      CheckEnabledTeamByTeamId h link.MattermostTeam = true := by
  cases hq : queryRow db.links (fun x => x.msTeamsChannelID == channelID) with
  | error e => simp [GetLinkByMSTeamsChannelID, hq] at hget
  | ok r =>
    rw [GetLinkByMSTeamsChannelID_of_row h db teamID channelID r hq] at hget
    cases hc : CheckEnabledTeamByTeamId h r.mmTeamID with
    | false => simp [hc] at hget
    | true =>
      simp only [hc, if_true, Except.ok.injEq] at hget
      subst hget
      have hmem := queryRow_mem hq
      exact ⟨hmem.1, by simpa [scanLink] using hmem.2, hc⟩

theorem queryRow_of_mem {ρ : Type} (table : List ρ) (wh : ρ → Bool) (r : ρ)
    (hr : r ∈ table) (hwh : wh r = true) : ∃ x, queryRow table wh = .ok x := by
  cases hfind : table.find? wh with
  | none =>
    rw [List.find?_eq_none] at hfind
    exact absurd hwh (hfind r hr)
  | some x => exact ⟨x, (queryRow_eq_ok_iff table wh x).mpr hfind⟩

theorem CheckEnabledTeamByTeamId_single (h : Host) (name teamId : String)
    (hcfg : h.enabledTeams = [name]) (hname : name ≠ "")
    (hteam : h.GetTeam teamId ≠ some name) :
    CheckEnabledTeamByTeamId h teamId = false := by
  unfold CheckEnabledTeamByTeamId
  rw [length_one_and_head_empty, hcfg]
  have hne : ¬ [name] = [""] := by simpa using hname
  simp only [hne, decide_False, if_false]
  cases hg : h.GetTeam teamId with
  | none => rfl
  | some teamName =>
    have : teamName ≠ name := by
      intro heq
      exact hteam (by rw [hg, heq])
    simp [enabledTeamLoop, this]

/-- C5, as amended: on a store satisfying its primary keys, both link lookups
return only rows of the table whose local team is enabled.  With the
configured list `[""]` the lookup of the channel of a stored row succeeds,
whatever the team of the row.  With the list `["teamA"]` and a row `r` whose
team does not resolve to `teamA` (it resolves to another name such as
`teamB`, or the resolution fails): when `r` is stored, GetLinkByChannelID on
its channel returns the not-enabled error and no link, and
GetLinkByMSTeamsChannelID on its remote channel never returns the link of
`r`; GetLinkByMSTeamsChannelID returns the not-enabled error and no link when
`r` is the row its query fetches, the first stored row with that remote
channel. -/
theorem link_lookups_apply_enabled_filter (h : Host) (db : DB) (hvalid : db.Valid) :
    (∀ channelID link, GetLinkByChannelID h db channelID = .ok link →
        linkValues link ∈ db.links ∧
          CheckEnabledTeamByTeamId h link.MattermostTeam = true) ∧
    (∀ teamID channelID link, GetLinkByMSTeamsChannelID h db teamID channelID = .ok link →
        linkValues link ∈ db.links ∧
          CheckEnabledTeamByTeamId h link.MattermostTeam = true) ∧
    (h.enabledTeams = [""] → ∀ r ∈ db.links,
        GetLinkByChannelID h db r.mmChannelID = .ok (scanLink r) ∧
        ∀ teamID, ∃ link,
          GetLinkByMSTeamsChannelID h db teamID r.msTeamsChannelID = .ok link ∧
            link.MSTeamsChannel = r.msTeamsChannelID) ∧
    (h.enabledTeams = ["teamA"] → ∀ r, h.GetTeam r.mmTeamID ≠ some "teamA" →
        (r ∈ db.links → GetLinkByChannelID h db r.mmChannelID = .error .linkNotEnabled) ∧
        (∀ teamID channelID,
          GetLinkByMSTeamsChannelID h db teamID channelID ≠ .ok (scanLink r)) ∧
        (∀ teamID,
          queryRow db.links (fun x => x.msTeamsChannelID == r.msTeamsChannelID) = .ok r →
          GetLinkByMSTeamsChannelID h db teamID r.msTeamsChannelID
            = .error .linkNotEnabled)) := by
  refine ⟨?_, ?_, ?_, ?_⟩
  · intro channelID link hget
    have hinv := GetLinkByChannelID_ok_inv h db channelID link hget
    exact ⟨hinv.1, hinv.2.2⟩
  · intro teamID channelID link hget
    have hinv := GetLinkByMSTeamsChannelID_ok_inv h db teamID channelID link hget
    exact ⟨hinv.1, hinv.2.2⟩
  · intro hopen r hr
    constructor
    · rw [GetLinkByChannelID_of_row h db _ r (queryRow_links_by_key db hvalid r hr),
        CheckEnabledTeamByTeamId_open h hopen]
      rfl
    · intro teamID
      obtain ⟨x, hx⟩ := queryRow_of_mem db.links
        (fun x => x.msTeamsChannelID == r.msTeamsChannelID) r hr (by simp)
      refine ⟨scanLink x, ?_, ?_⟩
      · rw [GetLinkByMSTeamsChannelID_of_row h db teamID _ x hx,
          CheckEnabledTeamByTeamId_open h hopen]
        rfl
      · simpa [scanLink] using (queryRow_mem hx).2
  · intro hcfg r hteam
    have hoff : CheckEnabledTeamByTeamId h r.mmTeamID = false :=
      CheckEnabledTeamByTeamId_single h "teamA" r.mmTeamID hcfg (by decide) hteam
    refine ⟨?_, ?_, ?_⟩
    · intro hr
      rw [GetLinkByChannelID_of_row h db _ r (queryRow_links_by_key db hvalid r hr), hoff]
      rfl
    · intro teamID channelID hget
      have hinv := GetLinkByMSTeamsChannelID_ok_inv h db teamID channelID (scanLink r) hget
      have hon : CheckEnabledTeamByTeamId h r.mmTeamID = true := hinv.2.2
      rw [hoff] at hon
      exact Bool.false_ne_true hon
    · intro teamID hq
      rw [GetLinkByMSTeamsChannelID_of_row h db teamID _ r hq, hoff]
      rfl

/-! ## Users and tokens -/

theorem execUpsertUser_keys_of_taken (table : List UserRow) (r : UserRow) :
    (table.map (fun x =>
      if x.mmUserID == r.mmUserID then
        { x with msTeamsUserID := r.msTeamsUserID, token := r.token }
      else x)).map UserRow.mmUserID = table.map UserRow.mmUserID := by
  induction table with
  | nil => rfl
  | cons x rest ih =>
    simp only [List.map_cons, ih]
    by_cases hx : x.mmUserID = r.mmUserID <;> simp [hx]

theorem execUpsertUser_nodup (table : List UserRow) (r : UserRow)
    (hnodup : (table.map UserRow.mmUserID).Nodup) :
    ((execUpsertUser table r).map UserRow.mmUserID).Nodup := by
  unfold execUpsertUser
  cases hany : table.any (fun x => x.mmUserID == r.mmUserID) with
  | true =>
    simp only [if_true]
    rw [execUpsertUser_keys_of_taken]
    exact hnodup
  | false =>
    simp only [Bool.false_eq_true, if_false, List.map_append, List.map_cons, List.map_nil]
    rw [List.any_eq_false] at hany
    refine List.Nodup.append hnodup (List.nodup_singleton _) ?_
    rw [List.disjoint_singleton]
    intro hmem
    obtain ⟨x, hx, hkey⟩ := List.mem_map.mp hmem
    exact hany x hx (by simpa using hkey)

theorem find?_map_update (table : List UserRow) (r : UserRow)
    (hex : ∃ x ∈ table, x.mmUserID = r.mmUserID) :
    (table.map (fun x =>
      if x.mmUserID == r.mmUserID then
        { x with msTeamsUserID := r.msTeamsUserID, token := r.token }
      else x)).find? (fun x => x.mmUserID == r.mmUserID) = some r := by
  induction table with
  | nil =>
    obtain ⟨x, hx, _⟩ := hex
    cases hx
  | cons y rest ih =>
    by_cases hy : y.mmUserID = r.mmUserID
    · cases r
      simp_all [List.find?]
    · have hrest : ∃ x ∈ rest, x.mmUserID = r.mmUserID := by
        obtain ⟨x, hx, hkey⟩ := hex
        rcases List.mem_cons.mp hx with hxy | hxr
        · exact absurd (hxy ▸ hkey) hy
        · exact ⟨x, hxr, hkey⟩
      have hbeq : (y.mmUserID == r.mmUserID) = false := by simpa using hy
      simp only [List.map_cons, hbeq, Bool.false_eq_true, if_false, List.find?_cons]
      exact ih hrest

theorem execUpsertUser_find? (table : List UserRow) (r : UserRow) :
    (execUpsertUser table r).find? (fun x => x.mmUserID == r.mmUserID) = some r := by
  unfold execUpsertUser
  cases hany : table.any (fun x => x.mmUserID == r.mmUserID) with
  | true =>
    simp only [if_true]
    rw [List.any_eq_true] at hany
    obtain ⟨x, hx, hkey⟩ := hany
    exact find?_map_update table r ⟨x, hx, by simpa using hkey⟩
  | false =>
    simp only [Bool.false_eq_true, if_false]
    rw [List.any_eq_false] at hany
    have hq := queryRow_append_fresh table (fun x => x.mmUserID == r.mmUserID) r
      (by intro x hx; simpa using hany x hx) (by simp)
    exact (queryRow_eq_ok_iff _ _ _).mp hq

theorem filter_key_of_nodup {ρ : Type} (key : ρ → String) (table : List ρ) (r : ρ)
    (hnodup : (table.map key).Nodup) (hr : r ∈ table) :
    table.filter (fun x => key x == key r) = [r] := by
  induction table with
  | nil => cases hr
  | cons x rest ih =>
    rw [List.map_cons, List.nodup_cons] at hnodup
    rcases List.mem_cons.mp hr with hrx | hrest
    · subst hrx
      have hnone : rest.filter (fun x => key x == key r) = [] := by
        rw [List.filter_eq_nil_iff]
        intro y hy hkey
        exact hnodup.1 ((show key y = key r by simpa using hkey) ▸ List.mem_map_of_mem key hy)
      simp [List.filter_cons, hnone]
    · have hne : key x ≠ key r := by
        intro heq
        exact hnodup.1 (heq ▸ List.mem_map_of_mem key hrest)
      have hbeq : (key x == key r) = false := by simpa using hne
      rw [List.filter_cons, hbeq]
      exact ih hnodup.2 hrest

theorem SetUserInfo_of_tokenData {Token : Type} (codec : TokenCodec Token) (db : DB)
    (userID msTeamsUserID : String) (token : Option Token) (tokendata : String)
    (hdata : tokenData codec token = some tokendata) :
    SetUserInfo codec db userID msTeamsUserID token =
      (none, DB.mk db.links
        (execUpsertUser db.users (UserRow.mk userID msTeamsUserID tokendata)) db.posts) := by
  unfold SetUserInfo
  rw [hdata]

theorem SetUserInfo_ok_inv {Token : Type} (codec : TokenCodec Token) (db : DB)
    (userID msTeamsUserID : String) (token : Option Token)
    (hok : (SetUserInfo codec db userID msTeamsUserID token).1 = none) :
    ∃ tokendata, tokenData codec token = some tokendata := by
  cases hdata : tokenData codec token with
  | none => simp [SetUserInfo, hdata] at hok
  | some tokendata => exact ⟨tokendata, rfl⟩

theorem queryRow_users_after_upsert (table : List UserRow) (r : UserRow) :
    queryRow (execUpsertUser table r) (fun x => x.mmUserID == r.mmUserID) = .ok r :=
  (queryRow_eq_ok_iff _ _ _).mpr (execUpsertUser_find? table r)

theorem tokenData_eq_some_iff {Token : Type} (codec : TokenCodec Token)
    (token : Option Token) (blob : String) :
    tokenData codec token = some blob ↔
      (token = none ∧ blob = "") ∨ ∃ t, token = some t ∧ codec.marshal t = some blob := by
  cases token with
  | none =>
    constructor
    · intro hdata
      exact Or.inl ⟨rfl, (Option.some.inj hdata).symm⟩
    · rintro (⟨_, hb⟩ | ⟨t, ht, _⟩)
      · rw [hb]
        rfl
      · cases ht
  | some t =>
    constructor
    · intro hdata
      exact Or.inr ⟨t, rfl, hdata⟩
    · rintro (⟨hn, _⟩ | ⟨t2, ht, hm⟩)
      · cases hn
      · cases ht
        exact hm

/-- C7: on a store satisfying its primary keys, after SetUserInfo for `u`
with `r1`, `t1` and then with `r2`, `t2` both returned no error, the users
table holds exactly one row for `u`, and it is `(u, r2, blob2)` where `blob2`
is what `json.Marshal` wrote for `t2` (the empty blob for the nil token):
MattermostToTeamsUserId gives `r2` and the token lookup decodes `blob2`, so
the remote id and the token were replaced together. -/
theorem SetUserInfo_twice_replaces_pair {Token : Type} (codec : TokenCodec Token) (db : DB)
    (u r1 r2 : String) (t1 t2 : Option Token) (hvalid : db.Valid)
    (hfirst : (SetUserInfo codec db u r1 t1).1 = none)
    (hsecond : (SetUserInfo codec (SetUserInfo codec db u r1 t1).2 u r2 t2).1 = none) :
    ∃ blob2,
      (t2 = none → blob2 = "") ∧
      (∀ token2, t2 = some token2 → codec.marshal token2 = some blob2) ∧
      (SetUserInfo codec (SetUserInfo codec db u r1 t1).2 u r2 t2).2.users.filter
        (fun x => x.mmUserID == u) = [UserRow.mk u r2 blob2] ∧
      MattermostToTeamsUserId
        (SetUserInfo codec (SetUserInfo codec db u r1 t1).2 u r2 t2).2 u = .ok r2 ∧
      GetTokenForMattermostUser codec
        (SetUserInfo codec (SetUserInfo codec db u r1 t1).2 u r2 t2).2 u =
        decodeToken codec blob2 := by
  obtain ⟨blob1, hblob1⟩ := SetUserInfo_ok_inv codec db u r1 t1 hfirst
  rw [SetUserInfo_of_tokenData codec db u r1 t1 blob1 hblob1] at hsecond ⊢
  obtain ⟨blob2, hblob2⟩ := SetUserInfo_ok_inv codec _ u r2 t2 hsecond
  rw [SetUserInfo_of_tokenData codec _ u r2 t2 blob2 hblob2]
  dsimp only
  have hq := queryRow_users_after_upsert
    (execUpsertUser db.users (UserRow.mk u r1 blob1)) (UserRow.mk u r2 blob2)
  have hnodup := execUpsertUser_nodup _ (UserRow.mk u r2 blob2)
    (execUpsertUser_nodup db.users (UserRow.mk u r1 blob1) hvalid.2.1)
  have hpin := (tokenData_eq_some_iff codec t2 blob2).mp hblob2
  refine ⟨blob2, ?_, ?_, ?_, ?_, ?_⟩
  · intro hnil
    rcases hpin with ⟨_, hb⟩ | ⟨t, ht, _⟩
    · exact hb
    · rw [hnil] at ht
      cases ht
  · intro token2 hsome
    rcases hpin with ⟨hn, _⟩ | ⟨t, ht, hm⟩
    · rw [hn] at hsome
      cases hsome
    · rw [ht] at hsome
      cases hsome
      exact hm
  · exact filter_key_of_nodup UserRow.mmUserID _ (UserRow.mk u r2 blob2) hnodup
      (queryRow_mem hq).1
  · unfold MattermostToTeamsUserId
    dsimp only at hq ⊢
    rw [hq]
  · unfold GetTokenForMattermostUser
    dsimp only at hq ⊢
    rw [hq]

/-- After SetUserInfo with a present token for which `json.Marshal` wrote
`blob`, the call returned no error and GetTokenForMattermostUser for the same
user is the decoding of `blob`, whatever the store held before. -/
theorem GetTokenForMattermostUser_after_SetUserInfo {Token : Type}
    (codec : TokenCodec Token) (db : DB) (u r : String) (t : Token) (blob : String)
    (hblob : codec.marshal t = some blob) :
    (SetUserInfo codec db u r (some t)).1 = none ∧
      GetTokenForMattermostUser codec (SetUserInfo codec db u r (some t)).2 u
        = decodeToken codec blob := by
  rw [SetUserInfo_of_tokenData codec db u r (some t) blob hblob]
  have hq := queryRow_users_after_upsert db.users (UserRow.mk u r blob)
  refine ⟨rfl, ?_⟩
  unfold GetTokenForMattermostUser
  dsimp only at hq ⊢
  rw [hq]

/-- C10: with a decoder that rejects the empty blob, SetUserInfo with the nil
token returns no error, the row it leaves for `u` is `(u, r, "")`,
MattermostToTeamsUserId gives `r`, and GetTokenForMattermostUser returns the
decode error and no token. -/
theorem SetUserInfo_nil_token {Token : Type} (codec : TokenCodec Token) (db : DB)
    (u r : String) (hempty : codec.unmarshal "" = none) :
    (SetUserInfo codec db u r none).1 = none ∧
      queryRow (SetUserInfo codec db u r none).2.users (fun x => x.mmUserID == u)
        = .ok (UserRow.mk u r "") ∧
      MattermostToTeamsUserId (SetUserInfo codec db u r none).2 u = .ok r ∧
      GetTokenForMattermostUser codec (SetUserInfo codec db u r none).2 u
        = .error .unmarshalError := by
  rw [SetUserInfo_of_tokenData codec db u r none "" rfl]
  have hq := queryRow_users_after_upsert db.users (UserRow.mk u r "")
  dsimp only at hq ⊢
  refine ⟨rfl, hq, ?_, ?_⟩
  · unfold MattermostToTeamsUserId
    dsimp only
    rw [hq]
  · unfold GetTokenForMattermostUser
    dsimp only
    rw [hq]
    unfold decodeToken
    dsimp only
    rw [hempty]

/-! ## Posts -/

theorem LinkPosts_ok_inv (db : DB) (p c m : String) (hok : (LinkPosts db p c m).1 = none) :
    LinkPosts db p c m = (none, { db with posts := db.posts ++ [PostRow.mk p m c] }) ∧
      ∀ x ∈ db.posts, x.mmPostID ≠ p := by
  unfold LinkPosts execInsert at hok ⊢
  cases hany : db.posts.any (fun x => x.mmPostID == (PostRow.mk p m c).mmPostID) with
  | true => simp [hany] at hok
  | false =>
    simp only [hany, Bool.false_eq_true, if_false, true_and]
    rw [List.any_eq_false] at hany
    intro x hx
    simpa using hany x hx

/-- C4, as amended: after LinkPosts(p, c, m) returned no error,
MattermostToTeamsPostId(p) returns `m`, and TeamsToMattermostPostId(c, m)
returns `p` exactly when the store held, before the call, no post row with
remote container `c` and remote post id `m`. -/
theorem LinkPosts_then_lookups (db : DB) (p c m : String)
    (hok : (LinkPosts db p c m).1 = none) :
    MattermostToTeamsPostId (LinkPosts db p c m).2 p = .ok m ∧
      (TeamsToMattermostPostId (LinkPosts db p c m).2 c m = .ok p ↔
        ∀ x ∈ db.posts, ¬ (x.msTeamsPostID = m ∧ x.msTeamsChannelID = c)) := by
  obtain ⟨heq, hkey⟩ := LinkPosts_ok_inv db p c m hok
  rw [heq]
  refine ⟨?_, ⟨?_, ?_⟩⟩
  · unfold MattermostToTeamsPostId
    dsimp only
    rw [queryRow_append_fresh db.posts _ (PostRow.mk p m c)
      (by intro x hx; simpa using hkey x hx) (by simp)]
  · intro hlook x hx hmatch
    unfold TeamsToMattermostPostId at hlook
    dsimp only at hlook
    obtain ⟨y, hy⟩ := queryRow_of_mem (db.posts ++ [PostRow.mk p m c])
      (fun r => r.msTeamsPostID == m && r.msTeamsChannelID == c) x
      (List.mem_append_left _ hx) (by simp [hmatch.1, hmatch.2])
    have hfind := (queryRow_eq_ok_iff _ _ _).mp hy
    rw [List.find?_append] at hfind
    cases hold : db.posts.find?
        (fun r => r.msTeamsPostID == m && r.msTeamsChannelID == c) with
    | none =>
      rw [List.find?_eq_none] at hold
      exact hold x hx (by simp [hmatch.1, hmatch.2])
    | some z =>
      rw [hold] at hfind
      have hzy : z = y := by simpa using hfind
      subst hzy
      rw [hy] at hlook
      simp only [Except.ok.injEq] at hlook
      exact hkey z (List.mem_of_find?_eq_some hold) hlook
  · intro hfresh
    unfold TeamsToMattermostPostId
    dsimp only
    rw [queryRow_append_fresh db.posts _ (PostRow.mk p m c)
      (by intro x hx; simpa using hfresh x hx) (by simp)]

/-! ## The primary keys are kept -/

theorem DB.empty_valid : DB.empty.Valid := by
  simp [DB.Valid, DB.empty]

theorem sampleDB_valid : sampleDB.Valid := by
  unfold DB.Valid
  decide

theorem execInsert_nodup {ρ : Type} (key : ρ → String) (table table' : List ρ) (r : ρ)
    (hnodup : (table.map key).Nodup) (hins : execInsert key table r = .ok table') :
    (table'.map key).Nodup := by
  unfold execInsert at hins
  cases hany : table.any (fun x => key x == key r) with
  | true => simp [hany] at hins
  | false =>
    simp only [hany, Bool.false_eq_true, if_false, Except.ok.injEq] at hins
    subst hins
    rw [List.any_eq_false] at hany
    rw [List.map_append, List.map_cons, List.map_nil]
    refine List.Nodup.append hnodup (List.nodup_singleton _) ?_
    rw [List.disjoint_singleton]
    intro hmem
    obtain ⟨x, hx, hkey⟩ := List.mem_map.mp hmem
    exact hany x hx (by simpa using hkey)

theorem StoreChannelLink_valid (h : Host) (db : DB) (L : ChannelLink) (hvalid : db.Valid) :
    (StoreChannelLink h db L).2.Valid := by
  unfold StoreChannelLink
  cases hins : execInsert LinkRow.mmChannelID db.links (linkValues L) with
  | error e => exact hvalid
  | ok links =>
    have hnodup := execInsert_nodup _ _ _ _ hvalid.1 hins
    dsimp only
    split <;> exact ⟨hnodup, hvalid.2⟩

theorem LinkPosts_valid (db : DB) (p c m : String) (hvalid : db.Valid) :
    (LinkPosts db p c m).2.Valid := by
  unfold LinkPosts
  cases hins : execInsert PostRow.mmPostID db.posts (PostRow.mk p m c) with
  | error e => exact hvalid
  | ok posts => exact ⟨hvalid.1, hvalid.2.1, execInsert_nodup _ _ _ _ hvalid.2.2 hins⟩

theorem SetUserInfo_valid {Token : Type} (codec : TokenCodec Token) (db : DB)
    (u r : String) (t : Option Token) (hvalid : db.Valid) :
    (SetUserInfo codec db u r t).2.Valid := by
  unfold SetUserInfo
  cases tokenData codec t with
  | none => exact hvalid
  | some blob => exact ⟨hvalid.1, execUpsertUser_nodup _ _ hvalid.2.1, hvalid.2.2⟩

theorem DeleteLinkByChannelID_valid (db : DB) (channelID : String) (hvalid : db.Valid) :
    (DeleteLinkByChannelID db channelID).2.Valid := by
  refine ⟨?_, hvalid.2⟩
  exact List.Nodup.sublist (List.Sublist.map _ (List.filter_sublist _)) hvalid.1

/-! ## Sample runs -/

theorem StoreChannelLink_then_GetLinkByChannelID_witness :
    (∀ r ∈ sampleDB.links, r.mmChannelID ≠ townSquare.MattermostChannel) ∧
      CheckEnabledTeamByTeamId teamAHost townSquare.MattermostTeam = true ∧
      (StoreChannelLink teamAHost sampleDB townSquare).1 = none ∧
      GetLinkByChannelID teamAHost (StoreChannelLink teamAHost sampleDB townSquare).2
        townSquare.MattermostChannel = .ok townSquare :=
  ⟨by decide, by decide,
    StoreChannelLink_then_GetLinkByChannelID teamAHost sampleDB townSquare
      (by decide) (by decide)⟩

theorem StoreChannelLink_not_enabled_keeps_row_witness :
    (∀ r ∈ sampleDB.links, r.mmChannelID ≠ lostTeam.MattermostChannel) ∧
      CheckEnabledTeamByTeamId teamAHost lostTeam.MattermostTeam = false ∧
      (StoreChannelLink teamAHost sampleDB lostTeam).1 = some .linkNotEnabled ∧
      (StoreChannelLink teamAHost sampleDB lostTeam).2.links
        = sampleDB.links ++ [linkValues lostTeam] ∧
      linkValues lostTeam ∈ (StoreChannelLink teamAHost sampleDB lostTeam).2.links ∧
      queryRow (StoreChannelLink teamAHost sampleDB lostTeam).2.links
        (fun r => r.mmChannelID == lostTeam.MattermostChannel) = .ok (linkValues lostTeam) :=
  ⟨by decide, by decide,
    StoreChannelLink_not_enabled_keeps_row teamAHost sampleDB lostTeam
      (by decide) (by decide)⟩

theorem StoreChannelLink_same_channel_twice_witness :
    townSquare.MattermostChannel = townSquareAgain.MattermostChannel ∧
      (∀ r ∈ sampleDB.links, r.mmChannelID ≠ townSquare.MattermostChannel) ∧
      (StoreChannelLink teamAHost sampleDB townSquare).2.links
        = sampleDB.links ++ [linkValues townSquare] ∧
      (StoreChannelLink teamAHost (StoreChannelLink teamAHost sampleDB townSquare).2
        townSquareAgain).1 = some .duplicateKey ∧
      (StoreChannelLink teamAHost (StoreChannelLink teamAHost sampleDB townSquare).2
        townSquareAgain).2 = (StoreChannelLink teamAHost sampleDB townSquare).2 ∧
      (StoreChannelLink teamAHost (StoreChannelLink teamAHost sampleDB townSquare).2
        townSquareAgain).2.links.filter
          (fun r => r.mmChannelID == townSquare.MattermostChannel) = [linkValues townSquare] :=
  ⟨rfl, by decide,
    StoreChannelLink_same_channel_twice teamAHost sampleDB townSquare townSquareAgain
      rfl (by decide)⟩

theorem link_lookups_apply_enabled_filter_witness :
    sampleDB.Valid ∧
      GetLinkByChannelID openHost sampleDB "off-topic" = .ok offTopic ∧
      GetLinkByChannelID teamAHost sampleDB "off-topic" = .error .linkNotEnabled ∧
      GetLinkByMSTeamsChannelID teamAHost sampleDB "ms-team-2" "ms-random"
        = .error .linkNotEnabled :=
  ⟨sampleDB_valid,
    ((link_lookups_apply_enabled_filter openHost sampleDB sampleDB_valid).2.2.1 rfl
      (linkValues offTopic) (by decide)).1,
    ((link_lookups_apply_enabled_filter teamAHost sampleDB sampleDB_valid).2.2.2 rfl
      (linkValues offTopic) (by decide)).1 (by decide),
    ((link_lookups_apply_enabled_filter teamAHost sampleDB sampleDB_valid).2.2.2 rfl
      (linkValues offTopic) (by decide)).2.2 "ms-team-2" rfl⟩

/-- C5, as stated, fails for the lookup by remote channel.  Storing
`generalA` and then `generalB` leaves both rows in the table; the configured
list is `["teamA"]` and the team of the stored row of `generalB` resolves
to `teamB`, yet the lookup of its remote team and channel returns no error
but the link of `generalA`, the first row with that remote channel. -/
theorem GetLinkByMSTeamsChannelID_other_row_first :
    (StoreChannelLink teamAHost (StoreChannelLink teamAHost DB.empty generalA).2
        generalB).2 = sharedDB ∧
      sharedDB.Valid ∧
      linkValues generalB ∈ sharedDB.links ∧
      teamAHost.enabledTeams = ["teamA"] ∧
      teamAHost.GetTeam generalB.MattermostTeam = some "teamB" ∧
      GetLinkByMSTeamsChannelID teamAHost sharedDB generalB.MSTeamsTeam
        generalB.MSTeamsChannel = .ok generalA ∧
      GetLinkByMSTeamsChannelID teamAHost sharedDB generalB.MSTeamsTeam
        generalB.MSTeamsChannel ≠ .error .linkNotEnabled :=
  ⟨rfl, by unfold DB.Valid; decide, by decide, rfl, rfl, rfl,
    fun herr => by
      have hok : GetLinkByMSTeamsChannelID teamAHost sharedDB generalB.MSTeamsTeam
          generalB.MSTeamsChannel = .ok generalA := rfl
      rw [hok] at herr
      cases herr⟩

/-- C3: the lookup by remote channel does not compare the remote team.  The
sample database holds no link with remote team `ms-team-7` and remote channel
`ms-random`, yet the lookup for that pair returns the link of `ms-team-2`. -/
theorem GetLinkByMSTeamsChannelID_ignores_teamID :
    (∀ r ∈ sampleDB.links,
        ¬ (r.msTeamsTeamID = "ms-team-7" ∧ r.msTeamsChannelID = "ms-random")) ∧
      GetLinkByMSTeamsChannelID openHost sampleDB "ms-team-7" "ms-random" = .ok offTopic ∧
      offTopic.MSTeamsTeam ≠ "ms-team-7" :=
  ⟨by decide, rfl, by decide⟩

/-- C4, as stated, fails: the sample database maps the remote post `ms-post`
of `ms-chat` to `post-1`; LinkPosts of `post-2` to the same remote post
returns no error, after which two rows match the remote pair and the lookup
of the remote post returns the first of them, `post-1`, not `post-2`. -/
theorem LinkPosts_remote_post_linked_twice :
    (LinkPosts sampleDB "post-2" "ms-chat" "ms-post").1 = none ∧
      ((LinkPosts sampleDB "post-2" "ms-chat" "ms-post").2.posts.filter
        (fun r => r.msTeamsPostID == "ms-post" && r.msTeamsChannelID == "ms-chat")).map
          PostRow.mmPostID = ["post-1", "post-2"] ∧
      TeamsToMattermostPostId (LinkPosts sampleDB "post-2" "ms-chat" "ms-post").2
        "ms-chat" "ms-post" = .ok "post-1" ∧
      TeamsToMattermostPostId (LinkPosts sampleDB "post-2" "ms-chat" "ms-post").2
        "ms-chat" "ms-post" ≠ .ok "post-2" :=
  ⟨rfl, by decide, rfl, fun hp2 => absurd (Except.ok.inj hp2) (by decide)⟩

theorem LinkPosts_then_lookups_witness :
    (LinkPosts sampleDB "post-2" "ms-chat" "ms-post-2").1 = none ∧
      MattermostToTeamsPostId (LinkPosts sampleDB "post-2" "ms-chat" "ms-post-2").2
        "post-2" = .ok "ms-post-2" ∧
      TeamsToMattermostPostId (LinkPosts sampleDB "post-2" "ms-chat" "ms-post-2").2
        "ms-chat" "ms-post-2" = .ok "post-2" :=
  ⟨rfl, (LinkPosts_then_lookups sampleDB "post-2" "ms-chat" "ms-post-2" rfl).1,
    (LinkPosts_then_lookups sampleDB "post-2" "ms-chat" "ms-post-2" rfl).2.mpr (by decide)⟩

theorem SetUserInfo_twice_replaces_pair_witness :
    sampleDB.Valid ∧
      (SetUserInfo sampleCodec sampleDB "user-1" "ms-user-a" (some "first")).1 = none ∧
      (SetUserInfo sampleCodec
        (SetUserInfo sampleCodec sampleDB "user-1" "ms-user-a" (some "first")).2
        "user-1" "ms-user-b" (some "second")).1 = none ∧
      ∃ blob2,
        ((some "second" : Option String) = none → blob2 = "") ∧
        (∀ token2, some "second" = some token2 → sampleCodec.marshal token2 = some blob2) ∧
        (SetUserInfo sampleCodec
          (SetUserInfo sampleCodec sampleDB "user-1" "ms-user-a" (some "first")).2
          "user-1" "ms-user-b" (some "second")).2.users.filter
            (fun x => x.mmUserID == "user-1") = [UserRow.mk "user-1" "ms-user-b" blob2] ∧
        MattermostToTeamsUserId
          (SetUserInfo sampleCodec
            (SetUserInfo sampleCodec sampleDB "user-1" "ms-user-a" (some "first")).2
            "user-1" "ms-user-b" (some "second")).2 "user-1" = .ok "ms-user-b" ∧
        GetTokenForMattermostUser sampleCodec
          (SetUserInfo sampleCodec
            (SetUserInfo sampleCodec sampleDB "user-1" "ms-user-a" (some "first")).2
            "user-1" "ms-user-b" (some "second")).2 "user-1" =
          decodeToken sampleCodec blob2 :=
  ⟨sampleDB_valid, rfl, rfl,
    SetUserInfo_twice_replaces_pair sampleCodec sampleDB "user-1" "ms-user-a" "ms-user-b"
      (some "first") (some "second") sampleDB_valid rfl rfl⟩

theorem SetUserInfo_nil_token_witness :
    sampleCodec.unmarshal "" = none ∧
      (SetUserInfo sampleCodec sampleDB "user-1" "ms-user-a" none).1 = none ∧
      queryRow (SetUserInfo sampleCodec sampleDB "user-1" "ms-user-a" none).2.users
        (fun x => x.mmUserID == "user-1") = .ok (UserRow.mk "user-1" "ms-user-a" "") ∧
      MattermostToTeamsUserId (SetUserInfo sampleCodec sampleDB "user-1" "ms-user-a" none).2
        "user-1" = .ok "ms-user-a" ∧
      GetTokenForMattermostUser sampleCodec
        (SetUserInfo sampleCodec sampleDB "user-1" "ms-user-a" none).2 "user-1"
          = .error .unmarshalError :=
  ⟨rfl, SetUserInfo_nil_token sampleCodec sampleDB "user-1" "ms-user-a" rfl⟩

end MSTeamsSync
